import Mathlib

/-!
Shallow embedding of the shortcut registry and resolution/execution engine of
the shortcuts-plugin template (class ShortcutsPlugin in
templates/template_shortcuts_plugin.py), together with theorems settling the
specification claims about it.

Modelling conventions:
* A shortcut record is a JSON object.  Per the data model, the keyword field
  is required (the code indexes it without a default), all other fields are
  optional and are modelled as Option, with the defaults the code supplies
  via dict.get.
* Python exceptions are modelled with Except: the fallible OS-facing
  operations (environment-variable expansion and the four launch calls) are
  oracles passed in as Except-valued functions, and the try/except blocks of
  the code become matches on the answer of the oracle.
* Side effects of execute_shortcut are recorded in a trace (a list of
  Effect) so that frame claims (no OS call happens) are statable.
* Python string primitives (lower, strip truthiness, the < used by sorted)
  are embedded as executable functions on the underlying character lists,
  with the ASCII case mapping.
-/

namespace ShortcutsPlugin

/-- Python str.lower, restricted (like the rest of the embedding) to the
ASCII case mapping. -/
def pyLower (s : String) : String := ⟨s.data.map Char.toLower⟩

/-- Truthiness of Python s.strip(): a string strips to nothing, hence is
falsy, iff every character is whitespace (this includes the empty string). -/
def pyIsBlank (s : String) : Bool := s.data.all Char.isWhitespace

/-- Python string comparison (<): lexicographic on code points. -/
def pyStrLt : List Char → List Char → Bool
  | _, [] => false
  | [], _ :: _ => true
  | a :: as, b :: bs => if a < b then true else if b < a then false else pyStrLt as bs

/-- The may-be-placed-before relation realised by a stable ascending sort of
category names: a goes before b unless b < a in Python string order. -/
def catLe (a b : String) : Prop := pyStrLt b.data a.data = false

instance : DecidableRel catLe := fun a b =>
  inferInstanceAs (Decidable (pyStrLt b.data a.data = false))

/-- A shortcut record.  The keyword field is required (the code indexes it
directly); every other field is optional. -/
structure Shortcut where
  keyword : String
  name : Option String := none
  type : Option String := none
  path : Option String := none
  category : Option String := none
  priority : Option Int := none
  icon : Option String := none
  openWith : Option String := none
  deriving Repr, DecidableEq

/-- Python shortcut.get("path", "") in execute_shortcut. -/
def pathOf (s : Shortcut) : String := s.path.getD ""

/-- Python shortcut.get("category", "Uncategorized") in show_shortcut_list. -/
def categoryOf (s : Shortcut) : String := s.category.getD "Uncategorized"

/-- Python x.get("priority", 0), the sort key used by show_shortcut_list. -/
def prioOf (s : Shortcut) : Int := s.priority.getD 0

/-- Python next((s for s in self.shortcuts if s["keyword"] == keyword),
None): exact, case-sensitive first match in sequence order (used by
execute_shortcut and copy_path). -/
def resolve (shortcuts : List Shortcut) (k : String) : Option Shortcut :=
  shortcuts.find? (fun s => s.keyword == k)

/-- Python delete_shortcut: self.shortcuts = [s for s in self.shortcuts if
s["keyword"] != keyword]. -/
def delete_shortcut (shortcuts : List Shortcut) (k : String) : List Shortcut :=
  shortcuts.filter (fun s => s.keyword != k)

/-- A Flow Launcher result dictionary, restricted to the fields this plugin
emits (Title, SubTitle, IcoPath, JsonRPCAction.method,
JsonRPCAction.parameters, ContextData). -/
structure FlowResult where
  title : String
  subTitle : String
  icoPath : String
  methodName : Option String := none
  parameters : List String := []
  contextData : Option String := none
  deriving Repr, DecidableEq

/-- Python format_shortcut_result. -/
def format_shortcut_result (s : Shortcut) : FlowResult :=
  { title := s.name.getD "Unnamed"
    subTitle := s.path.getD ""
    icoPath := s.icon.getD "Images/icon.png"
    methodName := some "execute_shortcut"
    parameters := [s.keyword]
    contextData := some s.keyword }

/-- The static help entry query returns for a blank query. -/
def helpResult : FlowResult :=
  { title := "Type a shortcut keyword"
    subTitle := "Or type \x27list\x27 to see all shortcuts"
    icoPath := "Images/icon.png" }

/-- The category-header entry emitted by show_shortcut_list. -/
def headerResult (category : String) (n : Nat) : FlowResult :=
  { title := "📁 " ++ category
    subTitle := toString n ++ " shortcuts"
    icoPath := "Images/folder.png" }

/-- The first-appearance-ordered list of category names: the keys of the
categories dict built by show_shortcut_list (Python dicts preserve insertion
order). -/
def categoriesOf (shortcuts : List Shortcut) : List String :=
  shortcuts.foldl (fun acc s => if categoryOf s ∈ acc then acc else acc ++ [categoryOf s]) []

/-- The member list of one category group: the subsequence of the registry
whose records carry that category, in original order (the value the
categories dict associates to that key). -/
def groupOf (shortcuts : List Shortcut) (c : String) : List Shortcut :=
  shortcuts.filter (fun s => categoryOf s == c)

/-- Python sorted(categories.items()): the category names in ascending
lexicographic order (the keys are distinct, so only the keys are ever
compared). -/
def sortedCategories (shortcuts : List Shortcut) : List String :=
  (categoriesOf shortcuts).insertionSort catLe

/-- Python sorted(shortcuts, key=lambda x: x.get("priority", 0),
reverse=True): a stable sort placing higher priorities first; the stable
reverse=True keeps equal keys in original order, which is exactly insertion
sort with the non-strict goes-before relation prioOf b ≤ prioOf a. -/
def sortGroup (xs : List Shortcut) : List Shortcut :=
  xs.insertionSort (fun a b => prioOf b ≤ prioOf a)

/-- Python show_shortcut_list: a category header followed by the records of
the group in descending priority, groups in ascending category order. -/
def show_shortcut_list (shortcuts : List Shortcut) : List FlowResult :=
  (sortedCategories shortcuts).flatMap (fun c =>
    headerResult c (groupOf shortcuts c).length ::
      (sortGroup (groupOf shortcuts c)).map format_shortcut_result)

/-- Python query: the text "list" (case-insensitive) shows the category
view; other non-blank text collects one formatted result per record whose
lowercased keyword equals the lowercased query; blank text yields the help
entry. -/
def query (shortcuts : List Shortcut) (q : String) : List FlowResult :=
  if pyLower q == "list" then
    show_shortcut_list shortcuts
  else if !(pyIsBlank q) then
    (shortcuts.filter (fun s => pyLower q == pyLower s.keyword)).map format_shortcut_result
  else
    [helpResult]

/-- The four OS launch verbs execute_shortcut can invoke. -/
inductive OSVerb where
  /-- Python os.startfile(path): OS default-handler open (used for url, and
  for file without an openWith program). -/
  | defaultOpen (path : String)
  /-- Python subprocess.Popen of the explorer command: open the path in the
  file manager. -/
  | fileManagerOpen (path : String)
  /-- Python subprocess.Popen([open_with, path]): launch a program with the
  path as argument. -/
  | launchWithArgs (prog : String) (arg : String)
  /-- Python subprocess.Popen(path): launch the path as an executable. -/
  | launchExec (path : String)
  deriving Repr, DecidableEq

/-- Observable side effects of execute_shortcut, recorded in order. -/
inductive Effect where
  /-- Python os.path.expandvars was invoked on this path. -/
  | expandVars (path : String)
  /-- One of the four OS launch verbs was attempted. -/
  | osCall (v : OSVerb)
  deriving Repr, DecidableEq

/-- The OS launch verbs attempted in a trace. -/
def osCalls (tr : List Effect) : List OSVerb :=
  tr.filterMap (fun e => match e with | Effect.osCall v => some v | _ => none)

/-- The type dispatch of execute_shortcut (the if/elif chain on
shortcut.get("type", "file")), computing which OS verb is attempted on the
expanded path.  A result of none means the type tag matches no branch and
nothing is launched.  Note that the Python test on open_with is truthiness:
an empty-string openWith falls through to os.startfile. -/
def dispatch_verb (s : Shortcut) (path : String) : Option OSVerb :=
  let t := s.type.getD "file"
  if t == "url" then some (OSVerb.defaultOpen path)
  else if t == "folder" then some (OSVerb.fileManagerOpen path)
  else if t == "file" then
    match s.openWith with
    | some ow => if ow != "" then some (OSVerb.launchWithArgs ow path)
                 else some (OSVerb.defaultOpen path)
    | none => some (OSVerb.defaultOpen path)
  else if t == "app" then some (OSVerb.launchExec path)
  else none

/-- Python execute_shortcut(keyword): resolve the keyword (exact match,
first wins); on a miss return False having done nothing.  Otherwise, inside
the try block: expand environment variables in the path, dispatch on the
type tag, attempt the OS verb, and return True; any exception raised by the
expansion or launch oracles is caught and turned into False.  The second
component is the trace of attempted side effects. -/
def execute_shortcut (shortcuts : List Shortcut)
    (expand : String → Except String String)
    (os : OSVerb → Except String Unit) (k : String) : Bool × List Effect :=
  match shortcuts.find? (fun s => s.keyword == k) with
  | none => (false, [])
  | some s =>
    match expand (pathOf s) with
    | Except.error _ => (false, [Effect.expandVars (pathOf s)])
    | Except.ok path =>
      match dispatch_verb s path with
      | none => (true, [Effect.expandVars (pathOf s)])
      | some v =>
        match os v with
        | Except.ok _ => (true, [Effect.expandVars (pathOf s), Effect.osCall v])
        | Except.error _ => (false, [Effect.expandVars (pathOf s), Effect.osCall v])

/-- A JSON value, as produced by json.load. -/
inductive JsonVal where
  | obj (fields : List (String × JsonVal))
  | arr (items : List JsonVal)
  | str (s : String)
  | num (n : Int)
  | bool (b : Bool)
  | null

/-- Python dict.get on an object parsed by json.load: with duplicate keys
the last occurrence wins. -/
def jsonGet (fields : List (String × JsonVal)) (k : String) : Option JsonVal :=
  fields.foldl (fun acc kv => if kv.1 == k then some kv.2 else acc) none

/-- The outcome of the os.path.exists check plus open plus json.load on the
shortcuts file: none when the file is absent, an error when it is unreadable
or not valid JSON, otherwise the parsed value. -/
def LoadInput := Option (Except String JsonVal)

/-- Python load_shortcuts: return data.get("shortcuts", []) when the file
exists and parses; [] when it is absent; [] (via the except clause) when
opening or parsing raises, and likewise when the parsed value is not an
object (data.get then raises AttributeError, caught by the same handler). -/
def load_shortcuts (file : LoadInput) : JsonVal :=
  match file with
  | none => JsonVal.arr []
  | some (Except.error _) => JsonVal.arr []
  | some (Except.ok (JsonVal.obj fields)) => (jsonGet fields "shortcuts").getD (JsonVal.arr [])
  | some (Except.ok _) => JsonVal.arr []

/-- Python save_shortcuts: json.dump writes a one-field object holding the
in-memory sequence under the key "shortcuts". -/
def save_shortcuts (shortcuts : JsonVal) : JsonVal :=
  JsonVal.obj [("shortcuts", shortcuts)]

/-! Concrete records and oracles used by the witnesses and counterexamples. -/

/-- A url-typed record. -/
def exUrl : Shortcut :=
  { keyword := "g", name := some "Search", type := some "url",
    path := some "https://example.com", category := some "Web", priority := some 10 }

/-- A folder-typed record. -/
def exFolder : Shortcut := { keyword := "dl", type := some "folder", path := some "C:\\Downloads" }

/-- A file-typed record with a non-empty openWith program. -/
def exFileOpenWith : Shortcut :=
  { keyword := "n", type := some "file", path := some "notes.txt",
    openWith := some "notepad.exe" }

/-- A file-typed record whose openWith field is present but empty, as in the
sample persisted file of the spec. -/
def exFileEmptyOpenWith : Shortcut :=
  { keyword := "f", type := some "file", path := some "p", openWith := some "" }

/-- An app-typed record. -/
def exApp : Shortcut := { keyword := "calc", type := some "app", path := some "calc.exe" }

/-- First of two records sharing one keyword. -/
def exDup1 : Shortcut := { keyword := "dup", name := some "first" }

/-- Second of two records sharing one keyword. -/
def exDup2 : Shortcut := { keyword := "dup", name := some "second" }

/-- A record with a distinct keyword. -/
def exOther : Shortcut := { keyword := "other" }

/-- A record whose keyword is a single space: non-empty, as the data model
requires, but whitespace-only. -/
def exSpaceKey : Shortcut := { keyword := " " }

/-- Scenario record a (category X, priority 1). -/
def scA : Shortcut := { keyword := "a", category := some "X", priority := some 1 }

/-- Scenario record b (category X, priority 5). -/
def scB : Shortcut := { keyword := "b", category := some "X", priority := some 5 }

/-- Scenario record c (category Y, priority 0). -/
def scC : Shortcut := { keyword := "c", category := some "Y", priority := some 0 }

/-- An expansion oracle that always succeeds, returning the path unchanged. -/
def expandOk : String → Except String String := fun s => Except.ok s

/-- An expansion oracle that always raises. -/
def expandFail : String → Except String String := fun _ => Except.error "expand failure"

/-- A launch oracle that always succeeds. -/
def osOk : OSVerb → Except String Unit := fun _ => Except.ok ()

/-- A launch oracle that always raises. -/
def osFail : OSVerb → Except String Unit := fun _ => Except.error "launch failure"

/-- Strict ascending order of category names: Python string `<`. -/
def catLt (a b : String) : Prop := pyStrLt a.data b.data = true

/-! Helper lemmas. -/

theorem pyStrLt_irrefl : ∀ as : List Char, pyStrLt as as = false
  | [] => rfl
  | a :: as => by simp [pyStrLt, pyStrLt_irrefl as]

theorem pyStrLt_trans : ∀ as bs cs : List Char,
    pyStrLt as bs = true → pyStrLt bs cs = true → pyStrLt as cs = true
  | _, [], _, hab, _ => by simp [pyStrLt] at hab
  | [], _ :: _, [], _, hbc => by simp [pyStrLt] at hbc
  | [], _ :: _, _ :: _, _, _ => rfl
  | _ :: _, _ :: _, [], _, hbc => by simp [pyStrLt] at hbc
  | a :: as, b :: bs, c :: cs, hab, hbc => by
    simp only [pyStrLt] at hab hbc ⊢
    rcases lt_trichotomy a b with h1 | h1 | h1
    · rcases lt_trichotomy b c with h2 | h2 | h2
      · rw [if_pos (lt_trans h1 h2)]
      · subst h2
        rw [if_pos h1]
      · rw [if_neg (lt_asymm h2), if_pos h2] at hbc
        exact absurd hbc (by simp)
    · subst h1
      rw [if_neg (lt_irrefl a), if_neg (lt_irrefl a)] at hab
      rcases lt_trichotomy a c with h2 | h2 | h2
      · rw [if_pos h2]
      · subst h2
        rw [if_neg (lt_irrefl a), if_neg (lt_irrefl a)] at hbc
        rw [if_neg (lt_irrefl a), if_neg (lt_irrefl a)]
        exact pyStrLt_trans as bs cs hab hbc
      · rw [if_neg (lt_asymm h2), if_pos h2] at hbc
        exact absurd hbc (by simp)
    · rw [if_neg (lt_asymm h1), if_pos h1] at hab
      exact absurd hab (by simp)

theorem pyStrLt_connex : ∀ as bs : List Char,
    pyStrLt as bs = false → pyStrLt bs as = false → as = bs
  | [], [], _, _ => rfl
  | [], _ :: _, hab, _ => by simp [pyStrLt] at hab
  | _ :: _, [], _, hba => by simp [pyStrLt] at hba
  | a :: as, b :: bs, hab, hba => by
    simp only [pyStrLt] at hab hba
    rcases lt_trichotomy a b with h1 | h1 | h1
    · rw [if_pos h1] at hab
      exact absurd hab (by simp)
    · subst h1
      rw [if_neg (lt_irrefl a), if_neg (lt_irrefl a)] at hab hba
      rw [pyStrLt_connex as bs hab hba]
    · rw [if_pos h1] at hba
      exact absurd hba (by simp)

theorem stringDataEq {a b : String} (h : a.data = b.data) : a = b := by
  cases a
  cases b
  exact congrArg String.mk h

instance : IsTotal String catLe :=
  ⟨fun a b => by
    by_cases h : pyStrLt b.data a.data = false
    · exact Or.inl h
    · refine Or.inr ?_
      by_contra h2
      have h1 := eq_true_of_ne_false h
      have h2 := eq_true_of_ne_false h2
      have := pyStrLt_trans _ _ _ h1 h2
      simp [pyStrLt_irrefl] at this⟩

instance : IsTrans String catLe :=
  ⟨fun a b c hab hbc => by
    unfold catLe at hab hbc ⊢
    by_contra h
    have h := eq_true_of_ne_false h
    by_cases h1 : pyStrLt a.data b.data = true
    · have := pyStrLt_trans _ _ _ h h1
      rw [hbc] at this
      exact Bool.false_ne_true this
    · have : a.data = b.data :=
        pyStrLt_connex _ _ (Bool.eq_false_iff.mpr h1) hab
      rw [stringDataEq this] at h
      rw [hbc] at h
      exact Bool.false_ne_true h⟩

instance : IsTotal Shortcut (fun a b => prioOf b ≤ prioOf a) :=
  ⟨fun a b => le_total (prioOf b) (prioOf a)⟩

instance : IsTrans Shortcut (fun a b => prioOf b ≤ prioOf a) :=
  ⟨fun _ _ _ hab hbc => le_trans hbc hab⟩

theorem catLe_of_ne_of_not_lt {a b : String} (hle : catLe a b) (hne : a ≠ b) : catLt a b := by
  unfold catLe at hle
  unfold catLt
  by_contra h
  exact hne (stringDataEq (pyStrLt_connex _ _ (Bool.eq_false_iff.mpr h) hle))

theorem mem_foldl_categories (x : String) :
    ∀ (l : List Shortcut) (acc : List String),
      x ∈ l.foldl (fun acc s => if categoryOf s ∈ acc then acc else acc ++ [categoryOf s]) acc
        ↔ x ∈ acc ∨ ∃ s ∈ l, categoryOf s = x
  | [], acc => by simp
  | s :: l, acc => by
    simp only [List.foldl_cons]
    rw [mem_foldl_categories x l]
    by_cases h : categoryOf s ∈ acc
    · rw [if_pos h]
      constructor
      · rintro (hx | hx)
        · exact Or.inl hx
        · exact Or.inr (by simpa using Or.inr hx)
      · rintro (hx | hx)
        · exact Or.inl hx
        · rcases (by simpa using hx : categoryOf s = x ∨ ∃ t ∈ l, categoryOf t = x) with he | ht
          · exact Or.inl (he ▸ h)
          · exact Or.inr ht
    · rw [if_neg h]
      simp only [List.mem_append, List.mem_singleton]
      constructor
      · rintro ((hx | hx) | hx)
        · exact Or.inl hx
        · exact Or.inr (by simpa using Or.inl hx.symm)
        · exact Or.inr (by simpa using Or.inr hx)
      · rintro (hx | hx)
        · exact Or.inl (Or.inl hx)
        · rcases (by simpa using hx : categoryOf s = x ∨ ∃ t ∈ l, categoryOf t = x) with he | ht
          · exact Or.inl (Or.inr he.symm)
          · exact Or.inr ht

theorem nodup_foldl_categories :
    ∀ (l : List Shortcut) (acc : List String), acc.Nodup →
      (l.foldl (fun acc s => if categoryOf s ∈ acc then acc else acc ++ [categoryOf s]) acc).Nodup
  | [], _, h => h
  | s :: l, acc, h => by
    simp only [List.foldl_cons]
    by_cases hc : categoryOf s ∈ acc
    · rw [if_pos hc]
      exact nodup_foldl_categories l acc h
    · rw [if_neg hc]
      refine nodup_foldl_categories l _ ?_
      exact List.Nodup.append h (List.nodup_singleton _) (by simpa using hc)

theorem nodup_categoriesOf (r : List Shortcut) : (categoriesOf r).Nodup :=
  nodup_foldl_categories r [] List.nodup_nil

theorem mem_categoriesOf {x : String} {r : List Shortcut} :
    x ∈ categoriesOf r ↔ ∃ s ∈ r, categoryOf s = x := by
  rw [categoriesOf, mem_foldl_categories]
  simp

theorem filter_prio_orderedInsert (p : Int) (s : Shortcut) :
    ∀ xs : List Shortcut,
      (List.orderedInsert (fun a b => prioOf b ≤ prioOf a) s xs).filter
          (fun t => prioOf t == p)
        = (if prioOf s = p then [s] else []) ++ xs.filter (fun t => prioOf t == p)
  | [] => by
    by_cases hs : prioOf s = p <;> simp [List.filter_cons, hs, beq_iff_eq]
  | b :: t => by
    by_cases hb : prioOf b ≤ prioOf s
    · simp only [List.orderedInsert, if_pos hb]
      by_cases hs : prioOf s = p <;> simp [List.filter_cons, hs, beq_iff_eq]
    · simp only [List.orderedInsert, if_neg hb]
      rw [List.filter_cons, List.filter_cons, filter_prio_orderedInsert p s t]
      by_cases hbp : prioOf b = p
      · have hlt : prioOf s < prioOf b := not_le.mp hb
        have hsp : prioOf s ≠ p := by
          rw [← hbp]
          exact ne_of_lt hlt
        simp [hbp, hsp, beq_iff_eq]
      · simp [hbp, beq_iff_eq]

theorem filter_prio_insertionSort (p : Int) :
    ∀ xs : List Shortcut,
      (List.insertionSort (fun a b => prioOf b ≤ prioOf a) xs).filter (fun t => prioOf t == p)
        = xs.filter (fun t => prioOf t == p)
  | [] => rfl
  | b :: t => by
    rw [List.insertionSort, filter_prio_orderedInsert p b _, filter_prio_insertionSort p t,
      List.filter_cons]
    by_cases hb : prioOf b = p <;> simp [hb, beq_iff_eq]

theorem filter_prio_sortGroup (p : Int) (xs : List Shortcut) :
    (sortGroup xs).filter (fun t => prioOf t == p) = xs.filter (fun t => prioOf t == p) :=
  filter_prio_insertionSort p xs

theorem find?_append_first {α : Type} (p : α → Bool) :
    ∀ (pre : List α) (s : α) (post : List α),
      p s = true → (∀ t ∈ pre, p t = false) →
      List.find? p (pre ++ s :: post) = some s := by
  intro pre
  induction pre with
  | nil =>
    intro s post hs _
    simpa using List.find?_cons_of_pos _ hs
  | cons t pre ih =>
    intro s post hs hpre
    have ht : p t = false := hpre t (List.mem_cons_self t pre)
    calc List.find? p ((t :: pre) ++ s :: post)
        = List.find? p (pre ++ s :: post) := by
          simpa using List.find?_cons_of_neg (pre ++ s :: post) (by simp [ht])
      _ = some s := ih s post hs (fun u hu => hpre u (List.mem_cons_of_mem t hu))

/-! Theorems settling the claims. -/

/-- C1: resolve performs an exact, case-sensitive first-match lookup over
the registry sequence: whenever the registry splits as pre ++ s :: post with
s carrying keyword k and nothing in pre carrying it, resolve returns s (so
with duplicates the first one wins); when no record carries k, and in
particular on the empty registry, resolve returns none (an absent result,
not an error); and any record resolve returns carries k and belongs to the
registry. -/
theorem C1_resolve_first_match (r : List Shortcut) (k : String) :
    (∀ pre s post, r = pre ++ s :: post → s.keyword = k →
        (∀ t ∈ pre, t.keyword ≠ k) → resolve r k = some s)
    ∧ ((∀ s ∈ r, s.keyword ≠ k) → resolve r k = none)
    ∧ resolve ([] : List Shortcut) k = none
    ∧ (∀ s, resolve r k = some s → s.keyword = k ∧ s ∈ r) := by
  refine ⟨?_, ?_, rfl, ?_⟩
  · intro pre s post hr hs hpre
    subst hr
    exact find?_append_first _ pre s post (beq_iff_eq.mpr hs)
      (fun t ht => beq_eq_false_iff_ne.mpr (hpre t ht))
  · intro h
    exact List.find?_eq_none.mpr (fun s hs => by simp [h s hs])
  · intro s hs
    simp only [resolve] at hs
    have hp := List.find?_some hs
    exact ⟨by simpa using hp, List.mem_of_find?_eq_some hs⟩

/-- C1 witness: on a registry holding two records with keyword dup and one
with keyword other, resolve returns the first duplicate; on a registry
without the keyword, and on the empty registry, it returns none. -/
theorem C1_witness :
    resolve [exDup1, exDup2, exOther] "dup" = some exDup1
    ∧ resolve [exOther] "dup" = none
    ∧ resolve ([] : List Shortcut) "dup" = none := by
  refine ⟨?_, ?_, ?_⟩
  · exact (C1_resolve_first_match [exDup1, exDup2, exOther] "dup").1
      [] exDup1 [exDup2, exOther] rfl (by decide) (by decide)
  · exact (C1_resolve_first_match [exOther] "dup").2.1 (by decide)
  · exact (C1_resolve_first_match [] "dup").2.2.1

/-- C3: delete_shortcut removes every record carrying the keyword (each
survivor carries a different keyword), keeps only original records in their
original relative order (the result is a sublist of the registry), keeps
every record with a different keyword with its exact multiplicity, and a
subsequent resolve of the deleted keyword returns none. -/
theorem C3_delete_all_matches (r : List Shortcut) (k : String) :
    (∀ s ∈ delete_shortcut r k, s.keyword ≠ k ∧ s ∈ r)
    ∧ List.Sublist (delete_shortcut r k) r
    ∧ (∀ s ∈ r, s.keyword ≠ k → s ∈ delete_shortcut r k)
    ∧ (∀ s : Shortcut, s.keyword ≠ k → (delete_shortcut r k).count s = r.count s)
    ∧ resolve (delete_shortcut r k) k = none := by
  refine ⟨?_, List.filter_sublist r, ?_, ?_, ?_⟩
  · intro s hs
    have := List.mem_filter.mp hs
    exact ⟨bne_iff_ne.mp this.2, this.1⟩
  · intro s hs hk
    exact List.mem_filter.mpr ⟨hs, bne_iff_ne.mpr hk⟩
  · intro s hk
    exact List.count_filter (bne_iff_ne.mpr hk)
  · exact List.find?_eq_none.mpr (fun s hs => by
      simp [bne_iff_ne.mp (List.mem_filter.mp hs).2])

/-- C3 witness: deleting keyword dup from a registry with two dup records
around one other record keeps the other record (with its count) and makes a
subsequent resolve of dup return none. -/
theorem C3_witness :
    exOther ∈ delete_shortcut [exDup1, exOther, exDup2] "dup"
    ∧ (delete_shortcut [exDup1, exOther, exDup2] "dup").count exOther
        = ([exDup1, exOther, exDup2] : List Shortcut).count exOther
    ∧ resolve (delete_shortcut [exDup1, exOther, exDup2] "dup") "dup" = none := by
  refine ⟨?_, ?_, ?_⟩
  · exact (C3_delete_all_matches [exDup1, exOther, exDup2] "dup").2.2.1
      exOther (by decide) (by decide)
  · exact (C3_delete_all_matches [exDup1, exOther, exDup2] "dup").2.2.2.1
      exOther (by decide)
  · exact (C3_delete_all_matches [exDup1, exOther, exDup2] "dup").2.2.2.2

/-- C9: executing a keyword that no record carries returns false with an
empty effect trace: no environment-variable expansion and no OS launch verb
is attempted, whatever the registry and the oracles. -/
theorem C9_execute_missing_no_effect (r : List Shortcut)
    (expand : String → Except String String) (os : OSVerb → Except String Unit)
    (k : String) (h : resolve r k = none) :
    execute_shortcut r expand os k = (false, []) := by
  simp only [resolve] at h
  unfold execute_shortcut
  rw [h]

/-- C9 witness: executing the keyword missing on the empty registry returns
false and an empty effect trace. -/
theorem C9_witness : execute_shortcut [] expandOk osOk "missing" = (false, []) :=
  C9_execute_missing_no_effect [] expandOk osOk "missing" (by decide)

/-- C5: load_shortcuts returns the value under the shortcuts key whenever
the file exists and parses to a JSON object carrying that key, an empty
sequence when the key is absent, and an empty sequence (never a propagated
fault, since the function is total) when the file is absent or when reading
or parsing fails. -/
theorem C5_load_failures_empty (fields : List (String × JsonVal)) (v : JsonVal) (e : String) :
    (jsonGet fields "shortcuts" = some v →
        load_shortcuts (some (Except.ok (JsonVal.obj fields))) = v)
    ∧ (jsonGet fields "shortcuts" = none →
        load_shortcuts (some (Except.ok (JsonVal.obj fields))) = JsonVal.arr [])
    ∧ load_shortcuts (none : LoadInput) = JsonVal.arr []
    ∧ load_shortcuts (some (Except.error e)) = JsonVal.arr [] := by
  refine ⟨fun h => ?_, fun h => ?_, rfl, rfl⟩ <;> simp [load_shortcuts, h]

/-- C5 witness: a file holding a one-record shortcuts array loads to that
array, and a file whose contents are invalid JSON loads to the empty array
rather than a fault. -/
theorem C5_witness :
    load_shortcuts (some (Except.ok (JsonVal.obj [("shortcuts", JsonVal.arr [JsonVal.null])])))
        = JsonVal.arr [JsonVal.null]
    ∧ load_shortcuts (some (Except.error "invalid json")) = JsonVal.arr [] :=
  ⟨(C5_load_failures_empty [("shortcuts", JsonVal.arr [JsonVal.null])]
      (JsonVal.arr [JsonVal.null]) "invalid json").1 rfl,
   (C5_load_failures_empty [] JsonVal.null "invalid json").2.2.2⟩

/-- C8: on a well-formed persisted file (a JSON object whose shortcuts key
holds an array), load followed immediately by save reproduces a document
whose shortcuts key holds the same record sequence as the original. -/
theorem C8_load_save_roundtrip (fields : List (String × JsonVal)) (items : List JsonVal)
    (h : jsonGet fields "shortcuts" = some (JsonVal.arr items)) :
    load_shortcuts (some (Except.ok (JsonVal.obj fields))) = JsonVal.arr items
    ∧ save_shortcuts (load_shortcuts (some (Except.ok (JsonVal.obj fields))))
        = JsonVal.obj [("shortcuts", JsonVal.arr items)]
    ∧ jsonGet [("shortcuts", JsonVal.arr items)] "shortcuts" = jsonGet fields "shortcuts" := by
  have hl : load_shortcuts (some (Except.ok (JsonVal.obj fields))) = JsonVal.arr items := by
    simp [load_shortcuts, h]
  refine ⟨hl, by rw [hl]; rfl, by rw [h]; rfl⟩

/-- C8 witness: a concrete well-formed file (with an extra unrelated key)
round-trips: load yields its shortcuts array and save emits a document whose
shortcuts key holds the same array. -/
theorem C8_witness :
    load_shortcuts (some (Except.ok (JsonVal.obj
        [("version", JsonVal.num 1), ("shortcuts", JsonVal.arr [JsonVal.str "rec"])])))
      = JsonVal.arr [JsonVal.str "rec"]
    ∧ save_shortcuts (load_shortcuts (some (Except.ok (JsonVal.obj
        [("version", JsonVal.num 1), ("shortcuts", JsonVal.arr [JsonVal.str "rec"])]))))
      = JsonVal.obj [("shortcuts", JsonVal.arr [JsonVal.str "rec"])] :=
  ⟨(C8_load_save_roundtrip
      [("version", JsonVal.num 1), ("shortcuts", JsonVal.arr [JsonVal.str "rec"])]
      [JsonVal.str "rec"] rfl).1,
   (C8_load_save_roundtrip
      [("version", JsonVal.num 1), ("shortcuts", JsonVal.arr [JsonVal.str "rec"])]
      [JsonVal.str "rec"] rfl).2.1⟩

theorem execute_trace_of_dispatch (r : List Shortcut)
    (expand : String → Except String String) (os : OSVerb → Except String Unit)
    (k : String) (s : Shortcut) (p : String) (v : OSVerb)
    (hres : resolve r k = some s) (hexp : expand (pathOf s) = Except.ok p)
    (hd : dispatch_verb s p = some v) :
    (execute_shortcut r expand os k).2 = [Effect.expandVars (pathOf s), Effect.osCall v] := by
  simp only [resolve] at hres
  unfold execute_shortcut
  simp only [hres, hexp, hd]
  cases h : os v <;> simp [h]

theorem dispatch_verb_url (s : Shortcut) (p : String) (h : s.type = some "url") :
    dispatch_verb s p = some (OSVerb.defaultOpen p) := by
  simp [dispatch_verb, h]

theorem dispatch_verb_folder (s : Shortcut) (p : String) (h : s.type = some "folder") :
    dispatch_verb s p = some (OSVerb.fileManagerOpen p) := by
  simp [dispatch_verb, h]

theorem dispatch_verb_file_default (s : Shortcut) (p : String) (h : s.type = some "file")
    (hw : s.openWith = none ∨ s.openWith = some "") :
    dispatch_verb s p = some (OSVerb.defaultOpen p) := by
  cases hw with
  | inl hw => simp [dispatch_verb, h, hw]
  | inr hw => simp [dispatch_verb, h, hw]

theorem dispatch_verb_file_openWith (s : Shortcut) (p : String) (ow : String)
    (h : s.type = some "file") (hw : s.openWith = some ow) (hne : ow ≠ "") :
    dispatch_verb s p = some (OSVerb.launchWithArgs ow p) := by
  simp [dispatch_verb, h, hw, hne]

theorem dispatch_verb_app (s : Shortcut) (p : String) (h : s.type = some "app") :
    dispatch_verb s p = some (OSVerb.launchExec p) := by
  simp [dispatch_verb, h]

/-- C2 counterexample: the claim fails on a file-typed record whose openWith
field is set to the empty string (as in the sample persisted file): the
Python truthiness test sends it to the OS default-handler open, not to a
launch of the openWith program with the path as argument. -/
theorem C2_counterexample :
    exFileEmptyOpenWith.type = some "file"
    ∧ exFileEmptyOpenWith.openWith = some ""
    ∧ execute_shortcut [exFileEmptyOpenWith] expandOk osOk "f"
        = (true, [Effect.expandVars "p", Effect.osCall (OSVerb.defaultOpen "p")])
    ∧ OSVerb.defaultOpen "p" ≠ OSVerb.launchWithArgs "" "p" :=
  ⟨rfl, rfl, by decide, by decide⟩

/-- C2 (amended: an openWith equal to the empty string counts as unset, per
Python truthiness): for every resolved record whose path expansion
succeeds, the type tag selects exactly one OS verb on the expanded path —
url attempts only the default-handler open (never the file-manager or
direct-executable verbs), folder only the file-manager open, file only the
launch of the openWith program with the path as argument when openWith is a
non-empty string and only the default-handler open otherwise, and app only
the direct executable launch. -/
theorem C2_dispatch_by_type (r : List Shortcut) (k : String) (s : Shortcut)
    (expand : String → Except String String) (os : OSVerb → Except String Unit)
    (p : String) (hres : resolve r k = some s) (hexp : expand (pathOf s) = Except.ok p) :
    (s.type = some "url" →
        osCalls (execute_shortcut r expand os k).2 = [OSVerb.defaultOpen p])
    ∧ (s.type = some "folder" →
        osCalls (execute_shortcut r expand os k).2 = [OSVerb.fileManagerOpen p])
    ∧ (s.type = some "file" → (s.openWith = none ∨ s.openWith = some "") →
        osCalls (execute_shortcut r expand os k).2 = [OSVerb.defaultOpen p])
    ∧ (∀ ow, s.type = some "file" → s.openWith = some ow → ow ≠ "" →
        osCalls (execute_shortcut r expand os k).2 = [OSVerb.launchWithArgs ow p])
    ∧ (s.type = some "app" →
        osCalls (execute_shortcut r expand os k).2 = [OSVerb.launchExec p]) := by
  refine ⟨fun h => ?_, fun h => ?_, fun h hw => ?_, fun ow h hw hne => ?_, fun h => ?_⟩
  · rw [execute_trace_of_dispatch r expand os k s p _ hres hexp (dispatch_verb_url s p h)]; rfl
  · rw [execute_trace_of_dispatch r expand os k s p _ hres hexp (dispatch_verb_folder s p h)]; rfl
  · rw [execute_trace_of_dispatch r expand os k s p _ hres hexp
      (dispatch_verb_file_default s p h hw)]; rfl
  · rw [execute_trace_of_dispatch r expand os k s p _ hres hexp
      (dispatch_verb_file_openWith s p ow h hw hne)]; rfl
  · rw [execute_trace_of_dispatch r expand os k s p _ hres hexp (dispatch_verb_app s p h)]; rfl

/-- C2 witness: a url record attempts exactly the default-handler open, and
a file record with a non-empty openWith attempts exactly the launch of that
program with the path as argument. -/
theorem C2_witness :
    osCalls (execute_shortcut [exUrl] expandOk osOk "g").2
        = [OSVerb.defaultOpen "https://example.com"]
    ∧ osCalls (execute_shortcut [exFileOpenWith] expandOk osOk "n").2
        = [OSVerb.launchWithArgs "notepad.exe" "notes.txt"] :=
  ⟨(C2_dispatch_by_type [exUrl] "g" exUrl expandOk osOk
      "https://example.com" (by decide) rfl).1 rfl,
   (C2_dispatch_by_type [exFileOpenWith] "n" exFileOpenWith expandOk osOk
      "notes.txt" (by decide) rfl).2.2.2.1 "notepad.exe" rfl rfl (by decide)⟩

/-- C6: failures raised by the fallible collaborators never escape: a
failing environment-variable expansion and a failing OS launch each make
execute_shortcut return the boolean false (with the trace showing how far
it got) rather than propagate the fault, and an unreadable or malformed
shortcuts file makes load_shortcuts return the empty sequence.  All
registry operations of the embedding are total functions, so no other
fault path exists. -/
theorem C6_failures_contained (r : List Shortcut) (k : String) (s : Shortcut)
    (expand : String → Except String String) (os : OSVerb → Except String Unit)
    (e : String) (p : String) (v : OSVerb) :
    (resolve r k = some s → expand (pathOf s) = Except.error e →
        execute_shortcut r expand os k = (false, [Effect.expandVars (pathOf s)]))
    ∧ (resolve r k = some s → expand (pathOf s) = Except.ok p →
        dispatch_verb s p = some v → os v = Except.error e →
        execute_shortcut r expand os k
          = (false, [Effect.expandVars (pathOf s), Effect.osCall v]))
    ∧ load_shortcuts (some (Except.error e)) = JsonVal.arr [] := by
  refine ⟨fun hres hexp => ?_, fun hres hexp hd hos => ?_, rfl⟩
  · simp only [resolve] at hres
    unfold execute_shortcut
    simp only [hres, hexp]
  · simp only [resolve] at hres
    unfold execute_shortcut
    simp only [hres, hexp, hd, hos]

/-- C6 witness: on an app record, a raising expansion oracle yields false
after only the expansion attempt, and a raising launch oracle yields false
after the expansion and the single launch attempt. -/
theorem C6_witness :
    execute_shortcut [exApp] expandFail osOk "calc"
        = (false, [Effect.expandVars "calc.exe"])
    ∧ execute_shortcut [exApp] expandOk osFail "calc"
        = (false, [Effect.expandVars "calc.exe", Effect.osCall (OSVerb.launchExec "calc.exe")]) :=
  ⟨(C6_failures_contained [exApp] "calc" exApp expandFail osOk
      "expand failure" "calc.exe" (OSVerb.launchExec "calc.exe")).1 (by decide) rfl,
   (C6_failures_contained [exApp] "calc" exApp expandOk osFail
      "launch failure" "calc.exe" (OSVerb.launchExec "calc.exe")).2.1
      (by decide) rfl rfl rfl⟩

/-- C7 counterexample: the claim fails on whitespace-only text: a single
space is non-empty text that is not the list command, yet query returns the
static help entry instead of the (empty) list of keyword matches. -/
theorem C7_counterexample :
    " " ≠ ""
    ∧ pyLower " " ≠ "list"
    ∧ query [] " " = [helpResult]
    ∧ query [] " " ≠ List.map format_shortcut_result
        (List.filter (fun s => pyLower " " == pyLower s.keyword) ([] : List Shortcut)) :=
  ⟨by decide, by decide, by decide, by decide⟩

/-- C7 (amended: the help entry is returned for blank text — empty or
whitespace-only — not just empty text): text lowercasing to "list" yields
the category view; other non-blank text yields one formatted result per
record whose lowercased keyword equals the lowercased text; blank text
yields exactly the single static help entry. -/
theorem C7_query_dispatch (r : List Shortcut) (q : String) :
    (pyLower q = "list" → query r q = show_shortcut_list r)
    ∧ (pyLower q ≠ "list" → pyIsBlank q = false →
        query r q
          = (r.filter (fun s => pyLower q == pyLower s.keyword)).map format_shortcut_result)
    ∧ (pyLower q ≠ "list" → pyIsBlank q = true →
        query r q = [helpResult] ∧ (query r q).length = 1) := by
  refine ⟨fun h => ?_, fun h hb => ?_, fun h hb => ?_⟩
  · simp [query, h]
  · simp [query, beq_eq_false_iff_ne.mpr h, hb]
  · constructor <;> simp [query, beq_eq_false_iff_ne.mpr h, hb]

/-- C7 witness: on a one-record registry, the text LIST (any case) yields
the category view, the text A matches keyword a case-insensitively, and the
empty text yields the help entry. -/
theorem C7_witness :
    query [scA] "LIST" = show_shortcut_list [scA]
    ∧ query [scA] "A" = [format_shortcut_result scA]
    ∧ query [scA] "" = [helpResult] :=
  ⟨(C7_query_dispatch [scA] "LIST").1 (by decide),
   ((C7_query_dispatch [scA] "A").2.1 (by decide) (by decide)).trans (by decide),
   ((C7_query_dispatch [scA] "").2.2 (by decide) (by decide)).1⟩

/-- C10 counterexample: the claim fails on whitespace-only query text, which
is non-empty and not the list command: with a registry holding a record
whose keyword is a single space (non-empty, so permitted by the data model)
and the query text a single space, the keyword matches the text
case-insensitively, yet query returns the static help entry — not one
formatted result per matching record — because the code branches on the
truthiness of the stripped text. -/
theorem C10_counterexample :
    " " ≠ ""
    ∧ pyLower " " ≠ "list"
    ∧ exSpaceKey ∈ [exSpaceKey]
    ∧ pyLower " " = pyLower exSpaceKey.keyword
    ∧ query [exSpaceKey] " " = [helpResult]
    ∧ query [exSpaceKey] " " ≠ [format_shortcut_result exSpaceKey] :=
  ⟨by decide, by decide, by decide, by decide, by decide, by decide⟩

/-- C10 (amended: the query text must be non-blank — contain a
non-whitespace character — rather than merely non-empty, since blank text
takes the help branch): when the query text is neither blank nor the list
command, query returns one formatted result per record whose lowercased
keyword equals the lowercased text, in sequence order — so all
case-insensitive duplicates appear — whereas resolve (used by execute)
returns only the first record whose keyword matches exactly. -/
theorem C10_query_lists_all_duplicates (r : List Shortcut) (q : String)
    (hl : pyLower q ≠ "list") (hb : pyIsBlank q = false) :
    query r q
      = (r.filter (fun s => pyLower q == pyLower s.keyword)).map format_shortcut_result
    ∧ (query r q).length = (r.filter (fun s => pyLower q == pyLower s.keyword)).length
    ∧ (∀ s ∈ r, pyLower q = pyLower s.keyword → format_shortcut_result s ∈ query r q)
    ∧ (∀ pre s post, r = pre ++ s :: post → s.keyword = q →
        (∀ t ∈ pre, t.keyword ≠ q) → resolve r q = some s) := by
  have hq : query r q
      = (r.filter (fun s => pyLower q == pyLower s.keyword)).map format_shortcut_result := by
    simp [query, beq_eq_false_iff_ne.mpr hl, hb]
  refine ⟨hq, by rw [hq, List.length_map], fun s hs hsk => ?_, fun pre s post hr hs hpre => ?_⟩
  · rw [hq]
    exact List.mem_map_of_mem _ (List.mem_filter.mpr ⟨hs, beq_iff_eq.mpr hsk⟩)
  · subst hr
    exact find?_append_first _ pre s post (beq_iff_eq.mpr hs)
      (fun t ht => beq_eq_false_iff_ne.mpr (hpre t ht))

/-- C10 witness: with two records sharing the keyword dup, query returns a
formatted entry for each in sequence order, while resolve returns only the
first. -/
theorem C10_witness :
    query [exDup1, exDup2] "dup"
      = [format_shortcut_result exDup1, format_shortcut_result exDup2]
    ∧ format_shortcut_result exDup2 ∈ query [exDup1, exDup2] "dup"
    ∧ resolve [exDup1, exDup2] "dup" = some exDup1 :=
  ⟨((C10_query_lists_all_duplicates [exDup1, exDup2] "dup" (by decide) (by decide)).1).trans
      (by decide),
   (C10_query_lists_all_duplicates [exDup1, exDup2] "dup" (by decide) (by decide)).2.2.1
      exDup2 (by decide) (by decide),
   (C10_query_lists_all_duplicates [exDup1, exDup2] "dup" (by decide) (by decide)).2.2.2
      [] exDup1 [exDup2] rfl (by decide) (by decide)⟩

/-- C4: show_shortcut_list groups records by category (a record with no
category field lands in the group of its default Uncategorized), emits the
groups in strictly ascending lexicographic order of category name (their
names are exactly the categories appearing in the registry), orders each
group by non-increasing priority, keeps records of equal priority in their
original relative order (for every priority value, filtering a sorted group
to that value gives the same sequence as filtering the unsorted group), and
on the scenario registry [a: X prio 1, b: X prio 5, c: Y prio 0] yields
group X = [b, a] then group Y = [c]. -/
theorem C4_list_by_category (r : List Shortcut) :
    show_shortcut_list r
      = (sortedCategories r).flatMap (fun c =>
          headerResult c (groupOf r c).length ::
            (sortGroup (groupOf r c)).map format_shortcut_result)
    ∧ List.Pairwise catLt (sortedCategories r)
    ∧ (∀ c, c ∈ sortedCategories r ↔ ∃ s ∈ r, categoryOf s = c)
    ∧ (∀ c, List.Sorted (fun a b => prioOf b ≤ prioOf a) (sortGroup (groupOf r c)))
    ∧ (∀ c p, (sortGroup (groupOf r c)).filter (fun t => prioOf t == p)
        = (groupOf r c).filter (fun t => prioOf t == p))
    ∧ show_shortcut_list [scA, scB, scC]
        = [headerResult "X" 2, format_shortcut_result scB, format_shortcut_result scA,
           headerResult "Y" 1, format_shortcut_result scC] := by
  refine ⟨rfl, ?_, ?_, ?_, fun c p => filter_prio_sortGroup p _, by decide⟩
  · have hs : List.Sorted catLe (sortedCategories r) :=
      List.sorted_insertionSort catLe (categoriesOf r)
    have hn : (sortedCategories r).Nodup :=
      (List.perm_insertionSort catLe (categoriesOf r)).nodup_iff.mpr (nodup_categoriesOf r)
    exact hs.imp₂ (fun a b hab hne => catLe_of_ne_of_not_lt hab hne) hn
  · intro c
    rw [sortedCategories, List.mem_insertionSort]
    exact mem_categoriesOf
  · intro c
    exact List.sorted_insertionSort _ (groupOf r c)

end ShortcutsPlugin
